import Mathlib

/-!
Verification of the structural COBOL parser in
`src/analysis/cobol_parser.py` (data model in `src/core/models.py`).

Text is modelled as `List Char`.  Python string primitives (`strip`,
`rstrip`, `upper`, `split('\n')`, `replace('\r\n','\n')`) are embedded
directly.  The five module-level `re` patterns are embedded as dedicated
matchers with Python `re` semantics: leftmost match, `re.MULTILINE` `^`
anchoring (match only at offset 0 or right after a newline),
`re.IGNORECASE` on ASCII letters, greedy quantifiers with backtracking
where backtracking is observable, and `finditer` resuming at each
match's end.  ASCII input is assumed (the source corpus is COBOL), so
Python's `str.upper`/`str.strip` coincide with the ASCII versions used
here.
-/

namespace CobolParser

/-- Whitespace stripped by Python's argument-less `str.strip`/`str.rstrip`
(ASCII fragment): space, tab, newline, carriage return, vertical tab,
form feed. -/
def pyWs (c : Char) : Bool :=
  c = ' ' || c = '\t' || c = '\n' || c = '\r' || c = '\x0b' || c = '\x0c'

/-- Python `str.rstrip()`. -/
def rstripL (l : List Char) : List Char :=
  (l.reverse.dropWhile pyWs).reverse

/-- Python `str.lstrip()`. -/
def lstripL (l : List Char) : List Char :=
  l.dropWhile pyWs

/-- Python `str.strip()`. -/
def stripL (l : List Char) : List Char :=
  rstripL (lstripL l)

/-- Python `str.upper()` (ASCII). -/
def upperL (l : List Char) : List Char :=
  l.map Char.toUpper

/-- Python `str.split('\n')`. -/
def splitOnNL : List Char → List (List Char)
  | [] => [[]]
  | c :: rest =>
    if c = '\n' then [] :: splitOnNL rest
    else
      match splitOnNL rest with
      | [] => [[c]]
      | l :: ls => (c :: l) :: ls

/-- Python `'\n'.join`. -/
def joinNL : List (List Char) → List Char
  | [] => []
  | [l] => l
  | l :: ls => l ++ '\n' :: joinNL ls

/-- Python `content.replace('\r\n', '\n')`: leftmost, non-overlapping. -/
def replaceCRLF : List Char → List Char
  | [] => []
  | [c] => [c]
  | c :: d :: rest =>
    if c = '\r' && d = '\n' then '\n' :: replaceCRLF rest
    else c :: replaceCRLF (d :: rest)

/-- Python `s.startswith(pat)`. -/
def startswith : List Char → List Char → Bool
  | _, [] => true
  | [], _ :: _ => false
  | c :: s, p :: ps => c = p && startswith s ps

/-- Class `[ \t]` (the whitespace the regexes use between tokens). -/
def isWsTab (c : Char) : Bool := c = ' ' || c = '\t'

/-- Class `[ \t\.]` (the separator class in the PROCEDURE alternative of
`RE_DIVISION`). -/
def isSepChar (c : Char) : Bool := c = ' ' || c = '\t' || c = '.'

/-- Class `[A-Z0-9-]` under `re.IGNORECASE`. -/
def isNameChar (c : Char) : Bool :=
  ('A' ≤ c && c ≤ 'Z') || ('a' ≤ c && c ≤ 'z') || ('0' ≤ c && c ≤ '9') || c = '-'

/-- Class `[A-Z0-9]` under `re.IGNORECASE` (first character of a paragraph or
PERFORM-target name: no dash). -/
def isAlnumChar (c : Char) : Bool :=
  ('A' ≤ c && c ≤ 'Z') || ('a' ≤ c && c ≤ 'z') || ('0' ≤ c && c ≤ '9')

/-- Case-insensitive character comparison (`re.IGNORECASE`, ASCII). -/
def eqCI (a b : Char) : Bool := a.toUpper = b.toUpper

/-- Case-insensitive literal: `litCI pat s` consumes `pat` (up to case)
from the front of `s` and returns the rest, or fails. -/
def litCI : List Char → List Char → Option (List Char)
  | [], s => some s
  | _ :: _, [] => none
  | p :: ps, c :: cs => if eqCI c p then litCI ps cs else none

/-! ### The five module-level regex patterns

Each `match…At` function attempts its pattern at the *start* of the
given suffix (the `^` anchoring itself is handled by the `finditer`
driver, which only attempts anchored patterns at line starts).  On
success it returns `(group 1, rest of the text after the match)`.

Greedy character-class runs are taken maximally; this is equivalent to
Python's backtracking wherever the run's class is disjoint from the
character required next (which holds at every such point in these
patterns).  The one place where backtracking is observable — the
`PROCEDURE … [A-Z0-9-]+ …` alternative of `RE_DIVISION` — is
implemented with an explicit longest-first search. -/

/-- The tail `[ \t]*DIVISION[ \t]*\.` of `RE_DIVISION` (deterministic:
each greedy run is followed by a character outside its class). -/
def tailDiv (s : List Char) : Option (List Char) :=
  match litCI "DIVISION".data (s.dropWhile isWsTab) with
  | none => none
  | some s2 =>
    match s2.dropWhile isWsTab with
    | '.' :: s4 => some s4
    | _ => none

/-- Alternative `(IDENTIFICATION|ENVIRONMENT|DATA)` of `RE_DIVISION`,
followed by the tail.  Returns `(length of group 1, rest)`.  The three
literals start with distinct letters, so at most one can apply. -/
def altFixedDiv (s : List Char) : Option (Nat × List Char) :=
  match litCI "IDENTIFICATION".data s with
  | some r => (tailDiv r).map (fun rest => (14, rest))
  | none =>
    match litCI "ENVIRONMENT".data s with
    | some r => (tailDiv r).map (fun rest => (11, rest))
    | none =>
      match litCI "DATA".data s with
      | some r => (tailDiv r).map (fun rest => (4, rest))
      | none => none

/-- Optional `(\([A-Z0-9-]+\))?` followed by the tail: try the parenthesised
group first (greedy option), then without it.  Returns
`(characters consumed before the tail, rest after the tail)`. -/
def parenThenTail (r2 : List Char) : Option (Nat × List Char) :=
  let withParen : Option (Nat × List Char) :=
    match r2 with
    | '(' :: r3 =>
      let inner := r3.takeWhile isNameChar
      if inner.isEmpty then none
      else
        match r3.drop inner.length with
        | ')' :: r4 => (tailDiv r4).map (fun rest => (inner.length + 2, rest))
        | _ => none
    | _ => none
  withParen.orElse (fun _ => (tailDiv r2).map (fun rest => (0, rest)))

/-- Backtracking over the greedy `[A-Z0-9-]+`: try name lengths from
`k` down to 1 (Python tries the longest first). -/
def tryNameLen (r1 : List Char) : Nat → Option (Nat × Nat × List Char)
  | 0 => none
  | k + 1 =>
    match parenThenTail (r1.drop (k + 1)) with
    | some (pl, rest) => some (k + 1, pl, rest)
    | none => tryNameLen r1 k

/-- Part `[ \t]*[A-Z0-9-]+(\([A-Z0-9-]+\))?` followed by the tail.  Returns
`(characters consumed before the tail, rest after the tail)`. -/
def tryNamePart (r : List Char) : Option (Nat × List Char) :=
  let r1 := r.dropWhile isWsTab
  let wsLen := r.length - r1.length
  let run := r1.takeWhile isNameChar
  if run.isEmpty then none
  else
    match tryNameLen r1 run.length with
    | some (nl, pl, rest) => some (wsLen + nl + pl, rest)
    | none => none

/-- Alternative `PROCEDURE[ \t\.]+(USING|CHAINING)?[ \t]*[A-Z0-9-]+(\([A-Z0-9-]+\))?`
of `RE_DIVISION`, followed by the tail.  The optional `(USING|CHAINING)`
is tried present-first, as Python's greedy `?` does.  Returns
`(length of group 1, rest)`. -/
def altProcParams (s : List Char) : Option (Nat × List Char) :=
  match litCI "PROCEDURE".data s with
  | none => none
  | some r0 =>
    let sep := r0.takeWhile isSepChar
    if sep.isEmpty then none
    else
      let r2 := r0.drop sep.length
      let base := 9 + sep.length
      let tryU : Option (Nat × List Char) :=
        match litCI "USING".data r2 with
        | some ru => (tryNamePart ru).map (fun p => (base + 5 + p.1, p.2))
        | none => none
      let tryC : Option (Nat × List Char) :=
        match litCI "CHAINING".data r2 with
        | some rc => (tryNamePart rc).map (fun p => (base + 8 + p.1, p.2))
        | none => none
      (tryU.orElse (fun _ => tryC)).orElse
        (fun _ => (tryNamePart r2).map (fun p => (base + p.1, p.2)))

/-- Alternative `(PROCEDURE)` of `RE_DIVISION`, followed by the tail. -/
def altProcBare (s : List Char) : Option (Nat × List Char) :=
  match litCI "PROCEDURE".data s with
  | none => none
  | some r0 => (tailDiv r0).map (fun rest => (9, rest))

/-- Pattern `RE_DIVISION` attempted at a line start (Python tries the three
alternatives of group 1 in source order). -/
def matchDivisionAt (s : List Char) : Option (List Char × List Char) :=
  let s1 := s.dropWhile isWsTab
  (((altFixedDiv s1).orElse (fun _ => altProcParams s1)).orElse
      (fun _ => altProcBare s1)).map
    (fun p => (s1.take p.1, p.2))

/-- Pattern `RE_SECTION` = `^[ \t]*([A-Z0-9-]+)[ \t]+SECTION[ \t]*\.`
attempted at a line start. -/
def matchSectionAt (s : List Char) : Option (List Char × List Char) :=
  let s1 := s.dropWhile isWsTab
  let g := s1.takeWhile isNameChar
  if g.isEmpty then none
  else
    let r2 := s1.drop g.length
    let w2 := r2.takeWhile isWsTab
    if w2.isEmpty then none
    else
      match litCI "SECTION".data (r2.drop w2.length) with
      | none => none
      | some r3 =>
        match r3.dropWhile isWsTab with
        | '.' :: r4 => some (g, r4)
        | _ => none

/-- Pattern `RE_PARAGRAPH` = `^[ \t]*([A-Z0-9][A-Z0-9-]*)[ \t]*\.(?![ \t]*\.)`
attempted at a line start (with the negative lookahead). -/
def matchParagraphAt (s : List Char) : Option (List Char × List Char) :=
  match s.dropWhile isWsTab with
  | [] => none
  | c :: r1 =>
    if isAlnumChar c then
      let tl := r1.takeWhile isNameChar
      match (r1.drop tl.length).dropWhile isWsTab with
      | '.' :: r3 =>
        match r3.dropWhile isWsTab with
        | '.' :: _ => none
        | _ => some (c :: tl, r3)
      | _ => none
    else none

/-- Pattern `RE_PROGRAM_ID` = `^[ \t]*PROGRAM-ID\.[ \t]*([A-Z0-9-]+)[ \t]*\.`
attempted at a line start. -/
def matchProgramIdAt (s : List Char) : Option (List Char × List Char) :=
  match litCI "PROGRAM-ID.".data (s.dropWhile isWsTab) with
  | none => none
  | some r1 =>
    let r2 := r1.dropWhile isWsTab
    let g := r2.takeWhile isNameChar
    if g.isEmpty then none
    else
      match (r2.drop g.length).dropWhile isWsTab with
      | '.' :: r3 => some (g, r3)
      | _ => none

/-- Pattern `RE_PERFORM` = `PERFORM[ \t]+([A-Z0-9][A-Z0-9-]*)` (not anchored:
attempted at every position). -/
def matchPerformAt (s : List Char) : Option (List Char × List Char) :=
  match litCI "PERFORM".data s with
  | none => none
  | some r1 =>
    let w := r1.takeWhile isWsTab
    if w.isEmpty then none
    else
      match r1.drop w.length with
      | [] => none
      | c :: r2 =>
        if isAlnumChar c then
          let tl := r2.takeWhile isNameChar
          some (c :: tl, r2.drop tl.length)
        else none

/-- The five compiled module-level patterns of the source file. -/
inductive Regex
  | RE_DIVISION
  | RE_SECTION
  | RE_PARAGRAPH
  | RE_PROGRAM_ID
  | RE_PERFORM
deriving DecidableEq, Repr

/-- Whether the pattern starts with a `re.MULTILINE` `^` anchor
(all of them except `RE_PERFORM`). -/
def Regex.anchored : Regex → Bool
  | .RE_PERFORM => false
  | _ => true

/-- Attempt the pattern at the start of the suffix `s`. -/
def Regex.matchAt : Regex → List Char → Option (List Char × List Char)
  | .RE_DIVISION => matchDivisionAt
  | .RE_SECTION => matchSectionAt
  | .RE_PARAGRAPH => matchParagraphAt
  | .RE_PROGRAM_ID => matchProgramIdAt
  | .RE_PERFORM => matchPerformAt

/-- Driver for `re.finditer`: scan positions left to right; an anchored
pattern is attempted only at line starts; after a successful match the
scan resumes at the match's end (these patterns never match the empty
string; the `len = 0` branch, which mirrors Python's bump-along rule
for empty matches, is unreachable).  Results are
`(start, end, group 1)`.  The `fuel` argument makes the recursion
structural; `text.length + 1` steps always suffice since every step
strictly shortens the remaining suffix. -/
def finditerAux (r : Regex) : Nat → List Char → Nat → Bool →
    List (Nat × Nat × List Char)
  | 0, _, _, _ => []
  | _ + 1, [], _, _ => []
  | fuel + 1, c :: cs, pos, atLS =>
    let s := c :: cs
    match (if r.anchored && !atLS then none else r.matchAt s) with
    | some (g, rest) =>
      let len := s.length - rest.length
      if len = 0 then finditerAux r fuel cs (pos + 1) (c = '\n')
      else
        (pos, pos + len, g) ::
          finditerAux r fuel rest (pos + len)
            (decide ((s.take len).getLast? = some '\n'))
    | none => finditerAux r fuel cs (pos + 1) (c = '\n')

/-- Model of `regex.finditer(text)` (position 0 counts as a line start). -/
def finditer (r : Regex) (text : List Char) : List (Nat × Nat × List Char) :=
  finditerAux r (text.length + 1) text 0 true

/-- Model of `regex.findall(text)` for a single-group pattern: the list of
group-1 captures. -/
def findall (r : Regex) (text : List Char) : List (List Char) :=
  (finditer r text).map (fun m => m.2.2)

/-! ### `split_by_regex` and the data model -/

/-- One `{'name': …, 'code': …}` dict produced by `split_by_regex`. -/
structure RPart where
  name : List Char
  code : List Char
deriving DecidableEq, Repr

/-- The `for i, match in enumerate(matches)` loop of `split_by_regex`:
each match contributes a part named `match.group(1).strip().upper()`
whose code is `text[match.end() : next match's start (or len(text))]`,
stripped. -/
def buildParts (text : List Char) : List (Nat × Nat × List Char) → List RPart
  | [] => []
  | (_, e, g) :: rest =>
    let endPos :=
      match rest with
      | [] => text.length
      | (s2, _, _) :: _ => s2
    ⟨upperL (stripL g), stripL ((text.drop e).take (endPos - e))⟩ ::
      buildParts text rest

/-- Model of `split_by_regex(text, regex)`: no match at all gives a single
`DEFAULT` part holding the whole text; text before the first match
becomes a `HEADER` part (unstripped); each match contributes a named
part. -/
def split_by_regex (text : List Char) (regex : Regex) : List RPart :=
  match finditer regex text with
  | [] => [⟨"DEFAULT".data, text⟩]
  | (s0, e0, g0) :: rest =>
    (if 0 < s0 then [⟨"HEADER".data, text.take s0⟩] else []) ++
      buildParts text ((s0, e0, g0) :: rest)

/-- Model of `src/core/models.py` `Paragraph` (pydantic defaults
`summary=None`, `calls=[]`). -/
structure Paragraph where
  name : List Char
  code : List Char
  summary : Option (List Char) := none
  calls : List (List Char) := []
deriving DecidableEq, Repr

/-- Model of `src/core/models.py` `Section`. -/
structure Section where
  name : List Char
  code : List Char
  summary : Option (List Char) := none
  paragraphs : List Paragraph := []
deriving DecidableEq, Repr

/-- Model of `src/core/models.py` `Division`. -/
structure Division where
  name : List Char
  code : List Char
  summary : Option (List Char) := none
  sections : List Section := []
  call_graph_mermaid : Option (List Char) := none
deriving DecidableEq, Repr

/-- Model of `src/core/models.py` `Program` (`program_name` is `Optional[str]`
in the model but `parse_program` always sets it, to `"UNKNOWN"` when no
`PROGRAM-ID` is found, so it is embedded as a plain string). -/
structure Program where
  filename : List Char
  program_name : List Char
  content : List Char
  divisions : List Division := []
deriving DecidableEq, Repr

/-! ### `clean_code` and the call graph -/

/-- The comment/debug test of `clean_code`: only applied when
`len(line) > 7`; column 7 (index 6) equal to `'*'`, `'d'` or `'D'`. -/
def isCommentMarked (l : List Char) : Bool :=
  if 7 < l.length then
    match l.get? 6 with
    | some c => c = '*' || c.toUpper = 'D'
    | none => false
  else false

/-- One iteration of the `for line in code_lines` loop of `clean_code`:
`none` means the line is dropped (`continue`). -/
def cleanLine (line : List Char) : Option (List Char) :=
  if isCommentMarked line then none
  else if 80 ≤ line.length then some (rstripL ((line.drop 6).take 66))
  else if 6 < line.length then some (rstripL (line.drop 6))
  else some (rstripL line)

/-- Model of `clean_code(code_lines)` = `"\n".join(cleaned_lines).strip()`. -/
def clean_code (code_lines : List (List Char)) : List Char :=
  stripL (joinNL (code_lines.filterMap cleanLine))

/-- All paragraphs of a division, in section order (the iteration order
of the two nested loops in `generate_mermaid_graph`). -/
def division_paragraphs (d : Division) : List Paragraph :=
  (d.sections.map Section.paragraphs).flatten

/-- Step `nodes.add(x)` on the Python `set`, modelled as an
insertion-ordered duplicate-free list (CPython's set iteration order is
implementation-defined; every claim below depends only on membership). -/
def insertNode (ns : List (List Char)) (x : List Char) : List (List Char) :=
  if x ∈ ns then ns else ns ++ [x]

/-- The node set accumulated by `generate_mermaid_graph`: every
paragraph's name, and every name in every paragraph's `calls`. -/
def graph_nodes (d : Division) : List (List Char) :=
  (division_paragraphs d).foldl
    (fun ns p => p.calls.foldl insertNode (insertNode ns p.name)) []

/-- The edges emitted by `generate_mermaid_graph`: one
`(caller, target)` pair per entry of each paragraph's `calls`, in
iteration order, duplicates preserved. -/
def graph_edges (d : Division) : List (List Char × List Char) :=
  (division_paragraphs d).flatMap (fun p => p.calls.map (fun t => (p.name, t)))

/-- Model of `generate_mermaid_graph(division)`: `"graph TD;"`, one line per
edge, then one definition line per node. -/
def generate_mermaid_graph (d : Division) : List Char :=
  joinNL ("graph TD;".data ::
    ((graph_edges d).map
        (fun e => "    ".data ++ e.1 ++ " --> ".data ++ e.2 ++ ";".data) ++
      (graph_nodes d).map
        (fun n => "    ".data ++ n ++ "([".data ++ n ++ "]);".data)))

/-! ### `parse_program` -/

/-- Optional mapping (the Python `for` loops that append one built
object per part, where building can hit an unguarded partial operation
— modelled as `none`). -/
def mapOpt (f : α → Option β) : List α → Option (List β)
  | [] => some []
  | a :: l =>
    match f a with
    | none => none
    | some b =>
      match mapOpt f l with
      | none => none
      | some r => some (b :: r)

/-- Step 3 of `parse_program` (lines 136–166): split one
procedure-division section's code by `RE_PARAGRAPH` and build its
paragraph list.  `paragraph_parts[0]` is the one unguarded partial
operation of the source (an index into a possibly-empty list),
modelled with `head?`. -/
def build_paragraphs (sname scode : List Char) : Option (List Paragraph) :=
  let paragraph_parts := split_by_regex scode .RE_PARAGRAPH
  match paragraph_parts.head? with
  | none => none
  | some p0 =>
    let sentinel := p0.name = "DEFAULT".data ∨ p0.name = "HEADER".data
    let headerParas : List Paragraph :=
      if sentinel ∧ stripL p0.code ≠ [] then
        [{ name := sname ++ "-HEADER".data, code := p0.code,
           summary := none,
           calls := (findall .RE_PERFORM p0.code).map upperL }]
      else []
    let parts2 :=
      if sentinel ∧ 1 < paragraph_parts.length then paragraph_parts.drop 1
      else paragraph_parts
    some (headerParas ++ parts2.filterMap (fun pp =>
      if (pp.name = "DEFAULT".data ∨ pp.name = "HEADER".data) ∧
          1 < parts2.length then none
      else some { name := pp.name, code := pp.code, summary := none,
                  calls := (findall .RE_PERFORM pp.code).map upperL }))

/-- The body of the `for sec_part in section_parts` loop of
`parse_program` (lines 131–166): build one `Section`, with paragraphs
only inside the procedure division. -/
def mkSection (div_name : List Char) (sec_part : RPart) : Option Section :=
  (if div_name = "PROCEDURE".data then
    build_paragraphs sec_part.name sec_part.code
   else some []).map
    (fun paras =>
      { name := sec_part.name, code := sec_part.code, summary := none,
        paragraphs := paras })

/-- The body of the `for div_part in division_parts` loop of
`parse_program` (the `HEADER` skip is applied by the caller):
canonicalise any `PROCEDURE…` name, clean the division's code, split it
into sections, build paragraphs for procedure-division sections, and
attach the mermaid graph to the procedure division. -/
def mkDivision (div_part : RPart) : Option Division :=
  let div_name :=
    if startswith div_part.name "PROCEDURE".data then "PROCEDURE".data
    else div_part.name
  let dcode := clean_code (splitOnNL div_part.code)
  (mapOpt (mkSection div_name) (split_by_regex dcode .RE_SECTION)).map
    (fun sections =>
      let d : Division :=
        { name := div_name, code := dcode, summary := none,
          sections := sections, call_graph_mermaid := none }
      if div_name = "PROCEDURE".data then
        { d with call_graph_mermaid := some (generate_mermaid_graph d) }
      else d)

/-- Model of `parse_program(filename, content)`: normalise line endings, search
for `PROGRAM-ID` (default `"UNKNOWN"`), split by `RE_DIVISION`
(skipping any leading `HEADER` part), build each division.  Returns
`none` only if an unguarded partial operation were reached (it never
is, since `split_by_regex` never returns an empty list). -/
def parse_program? (filename content0 : List Char) : Option Program :=
  let content := replaceCRLF content0
  let program_name :=
    match (finditer .RE_PROGRAM_ID content).head? with
    | some m => upperL m.2.2
    | none => "UNKNOWN".data
  (mapOpt mkDivision
      ((split_by_regex content .RE_DIVISION).filter
        (fun dp => decide (dp.name ≠ "HEADER".data)))).map
    (fun divisions =>
      { filename := filename, program_name := program_name,
        content := content, divisions := divisions })

/-! ### Helper lemmas -/

theorem mapOpt_pure (f : α → β) (l : List α) :
    mapOpt (fun a => some (f a)) l = some (l.map f) := by
  induction l with
  | nil => rfl
  | cons a l ih => simp [mapOpt, ih]

theorem mapOpt_isSome {f : α → Option β} {l : List α}
    (h : ∀ a ∈ l, ∃ b, f a = some b) : ∃ r, mapOpt f l = some r := by
  induction l with
  | nil => exact ⟨[], rfl⟩
  | cons a l ih =>
    obtain ⟨b, hb⟩ := h a (List.mem_cons_self a l)
    obtain ⟨r, hr⟩ := ih fun x hx => h x (List.mem_cons_of_mem a hx)
    exact ⟨b :: r, by simp [mapOpt, hb, hr]⟩

theorem mapOpt_mem {f : α → Option β} {l : List α} {r : List β}
    (h : mapOpt f l = some r) : ∀ b ∈ r, ∃ a ∈ l, f a = some b := by
  induction l generalizing r with
  | nil =>
    simp only [mapOpt, Option.some.injEq] at h
    subst h; simp
  | cons a l ih =>
    simp only [mapOpt] at h
    cases hfa : f a with
    | none => rw [hfa] at h; exact absurd h (by simp)
    | some b0 =>
      rw [hfa] at h
      cases hml : mapOpt f l with
      | none => rw [hml] at h; exact absurd h (by simp)
      | some r0 =>
        rw [hml] at h
        simp only [Option.some.injEq] at h
        subst h
        intro b hb
        rcases List.mem_cons.mp hb with hb | hb
        · exact ⟨a, List.mem_cons_self a l, hb ▸ hfa⟩
        · obtain ⟨a', ha', hfa'⟩ := ih hml b hb
          exact ⟨a', List.mem_cons_of_mem a ha', hfa'⟩

theorem split_by_regex_ne_nil (text : List Char) (r : Regex) :
    split_by_regex text r ≠ [] := by
  unfold split_by_regex
  cases h : finditer r text with
  | nil => simp
  | cons m rest =>
    obtain ⟨s0, e0, g0⟩ := m
    simp [buildParts]

theorem build_paragraphs_isSome (sn sc : List Char) :
    ∃ ps, build_paragraphs sn sc = some ps := by
  unfold build_paragraphs
  cases hl : split_by_regex sc .RE_PARAGRAPH with
  | nil => exact absurd hl (split_by_regex_ne_nil sc .RE_PARAGRAPH)
  | cons p0 rest => exact ⟨_, rfl⟩

theorem mkSection_isSome (dn : List Char) (sp : RPart) :
    ∃ s, mkSection dn sp = some s := by
  unfold mkSection
  split
  · obtain ⟨ps, hps⟩ := build_paragraphs_isSome sp.name sp.code
    rw [hps]
    exact ⟨_, rfl⟩
  · exact ⟨_, rfl⟩

theorem mkDivision_isSome (dp : RPart) : ∃ d, mkDivision dp = some d := by
  obtain ⟨secs, hsecs⟩ :=
    mapOpt_isSome (l := split_by_regex (clean_code (splitOnNL dp.code)) .RE_SECTION)
      fun sp _ => mkSection_isSome
        (if startswith dp.name "PROCEDURE".data then "PROCEDURE".data
         else dp.name) sp
  simp only [mkDivision]
  rw [hsecs]
  exact ⟨_, rfl⟩

theorem parse_program_splits (f c : List Char) :
    ∃ divs,
      mapOpt mkDivision
          ((split_by_regex (replaceCRLF c) .RE_DIVISION).filter
            (fun dp => decide (dp.name ≠ "HEADER".data))) = some divs ∧
      parse_program? f c =
        some { filename := f,
               program_name :=
                 match (finditer .RE_PROGRAM_ID (replaceCRLF c)).head? with
                 | some m => upperL m.2.2
                 | none => "UNKNOWN".data,
               content := replaceCRLF c, divisions := divs } := by
  obtain ⟨divs, hdivs⟩ := mapOpt_isSome fun dp _ => mkDivision_isSome dp
  refine ⟨divs, hdivs, ?_⟩
  simp only [parse_program?]
  rw [hdivs]
  rfl

theorem mkDivision_name {dp : RPart} {d : Division}
    (h : mkDivision dp = some d) :
    d.name = if startswith dp.name "PROCEDURE".data then "PROCEDURE".data
             else dp.name := by
  simp only [mkDivision] at h
  cases hm : mapOpt (mkSection
      (if startswith dp.name "PROCEDURE".data then "PROCEDURE".data
       else dp.name))
      (split_by_regex (clean_code (splitOnNL dp.code)) .RE_SECTION) with
  | none => rw [hm] at h; exact absurd h (by simp)
  | some secs =>
    rw [hm] at h
    simp only [Option.map_some', Option.some.injEq] at h
    subst h
    split <;> split <;> rfl

theorem mapOpt_congr {f g : α → Option β} {l : List α}
    (h : ∀ a ∈ l, f a = g a) : mapOpt f l = mapOpt g l := by
  induction l with
  | nil => rfl
  | cons a l ih =>
    simp [mapOpt, h a (List.mem_cons_self a l),
      ih fun x hx => h x (List.mem_cons_of_mem a hx)]

theorem mkSection_not_proc {dn : List Char} (h : ¬ dn = "PROCEDURE".data)
    (sp : RPart) :
    mkSection dn sp =
      some { name := sp.name, code := sp.code, summary := none,
             paragraphs := [] } := by
  simp [mkSection, h]

/-- A division part named `"DEFAULT"` (the no-match fallback) builds a
non-procedure division: sections split from the cleaned code, all with
empty paragraph lists. -/
theorem mkDivision_default (code : List Char) :
    mkDivision ⟨"DEFAULT".data, code⟩ =
      some { name := "DEFAULT".data, code := clean_code (splitOnNL code),
             summary := none,
             sections :=
               (split_by_regex (clean_code (splitOnNL code)) .RE_SECTION).map
                 (fun sp => { name := sp.name, code := sp.code,
                              summary := none, paragraphs := [] }),
             call_graph_mermaid := none } := by
  have h1 : startswith "DEFAULT".data "PROCEDURE".data = false := by decide
  have h2 : ¬ ("DEFAULT".data = "PROCEDURE".data) := by decide
  simp only [mkDivision, h1, Bool.false_eq_true, if_false]
  rw [mapOpt_congr fun sp _ => mkSection_not_proc h2 sp, mapOpt_pure]
  simp [h2]

theorem mem_insertNode {ns : List (List Char)} {x y : List Char} :
    x ∈ insertNode ns y ↔ x ∈ ns ∨ x = y := by
  unfold insertNode
  split
  · constructor
    · exact Or.inl
    · rintro (hx | rfl) <;> assumption
  · simp [List.mem_append]

theorem mem_foldl_insertNode (l ns : List (List Char)) (x : List Char) :
    x ∈ l.foldl insertNode ns ↔ x ∈ ns ∨ x ∈ l := by
  induction l generalizing ns with
  | nil => simp
  | cons a l ih =>
    rw [List.foldl_cons, ih, mem_insertNode]
    simp only [List.mem_cons]
    tauto

theorem mem_nodes_foldl (ps : List Paragraph) (acc : List (List Char))
    (x : List Char) :
    x ∈ ps.foldl
        (fun ns p => p.calls.foldl insertNode (insertNode ns p.name)) acc ↔
      x ∈ acc ∨ ∃ p ∈ ps, x = p.name ∨ x ∈ p.calls := by
  induction ps generalizing acc with
  | nil => simp
  | cons q ps ih =>
    rw [List.foldl_cons, ih, mem_foldl_insertNode, mem_insertNode]
    simp only [List.mem_cons]
    constructor
    · rintro (((h | h) | h) | ⟨p, hp, h⟩)
      · exact Or.inl h
      · exact Or.inr ⟨q, Or.inl rfl, Or.inl h⟩
      · exact Or.inr ⟨q, Or.inl rfl, Or.inr h⟩
      · exact Or.inr ⟨p, Or.inr hp, h⟩
    · rintro (h | ⟨p, hp | hp, h⟩)
      · exact Or.inl (Or.inl (Or.inl h))
      · subst hp
        rcases h with h | h
        · exact Or.inl (Or.inl (Or.inr h))
        · exact Or.inl (Or.inr h)
      · exact Or.inr ⟨p, hp, h⟩

theorem mem_graph_nodes {d : Division} {x : List Char} :
    x ∈ graph_nodes d ↔
      ∃ p ∈ division_paragraphs d, x = p.name ∨ x ∈ p.calls := by
  rw [graph_nodes, mem_nodes_foldl]
  simp

theorem mem_graph_edges {d : Division} {a b : List Char} :
    (a, b) ∈ graph_edges d ↔
      ∃ p ∈ division_paragraphs d, a = p.name ∧ b ∈ p.calls := by
  simp only [graph_edges, List.mem_flatMap, List.mem_map, Prod.mk.injEq]
  constructor
  · rintro ⟨p, hp, t, ht, hpn, rfl⟩
    exact ⟨p, hp, hpn.symm, ht⟩
  · rintro ⟨p, hp, rfl, hb⟩
    exact ⟨p, hp, b, hb, rfl, rfl⟩

theorem mem_division_paragraphs {d : Division} {p : Paragraph} :
    p ∈ division_paragraphs d ↔ ∃ s ∈ d.sections, p ∈ s.paragraphs := by
  simp only [division_paragraphs, List.mem_flatten, List.mem_map]
  constructor
  · rintro ⟨l, ⟨s, hs, rfl⟩, hp⟩
    exact ⟨s, hs, hp⟩
  · rintro ⟨s, hs, hp⟩
    exact ⟨s.paragraphs, ⟨s, hs, rfl⟩, hp⟩

/-! ### Lemmas about `clean_code` -/

theorem splitOnNL_ne_nil (t : List Char) : splitOnNL t ≠ [] := by
  cases t with
  | nil => simp [splitOnNL]
  | cons c rest =>
    simp only [splitOnNL]
    split
    · simp
    · split <;> simp

theorem joinNL_splitOnNL (t : List Char) : joinNL (splitOnNL t) = t := by
  induction t with
  | nil => rfl
  | cons c rest ih =>
    simp only [splitOnNL]
    split
    · rename_i hc
      subst hc
      cases hs : splitOnNL rest with
      | nil => exact absurd hs (splitOnNL_ne_nil rest)
      | cons l ls =>
        rw [hs] at ih
        simp [joinNL, ← ih]
    · cases hs : splitOnNL rest with
      | nil => exact absurd hs (splitOnNL_ne_nil rest)
      | cons l ls =>
        rw [hs] at ih
        cases ls with
        | nil => simp_all [joinNL]
        | cons l2 ls2 => simp_all [joinNL]

theorem filterMap_id_of {l : List α} {f : α → Option α}
    (h : ∀ a ∈ l, f a = some a) : l.filterMap f = l := by
  induction l with
  | nil => rfl
  | cons a l ih =>
    rw [List.filterMap_cons, h a (List.mem_cons_self a l),
      ih fun x hx => h x (List.mem_cons_of_mem a hx)]

theorem filterMap_cleanLine_filter (lines : List (List Char)) :
    (lines.filter (fun l => !(isCommentMarked l))).filterMap cleanLine =
      lines.filterMap cleanLine := by
  induction lines with
  | nil => rfl
  | cons a l ih =>
    by_cases h : isCommentMarked a
    · have ha : cleanLine a = none := by simp [cleanLine, h]
      simp [List.filter_cons, h, List.filterMap_cons, ha, ih]
    · simp [List.filter_cons, h, List.filterMap_cons, ih]

/-! ### The claims -/

/-- C1: for every filename string and every content string, the parser
terminates and returns a `Program` value without raising: the embedded
`parse_program?`, in which the single unguarded partial operation of
the source (`paragraph_parts[0]`) is modelled by `Option`, is `some` on
all inputs. -/
theorem C1_parse_program_total (filename content : List Char) :
    (parse_program? filename content).isSome = true := by
  obtain ⟨divs, _, hp⟩ := parse_program_splits filename content
  simp [hp]

/-- Scenario A input: a fixed-format two-line program carrying
sequence numbers in columns 1–6. -/
def scenarioA : List Char :=
  "123456 IDENTIFICATION DIVISION.\n123456 PROGRAM-ID. FOO.\n".data

/-- C2 counterexample: on scenario A the parser does *not* return
program name `FOO` with one `IDENTIFICATION` division.  The `^`-anchored
patterns `RE_PROGRAM_ID`/`RE_DIVISION` require the keyword at the start
of a line (after `[ \t]*` only), and the sequence numbers occupy the
line starts, so neither pattern matches. -/
theorem C2_scenarioA_cex :
    ¬ ((parse_program? "prog.cbl".data scenarioA).map
        (fun p => (p.program_name, p.divisions.map Division.name)) =
      some ("FOO".data, ["IDENTIFICATION".data])) := by decide

/-- C2 amended: scenario A yields program name `UNKNOWN` and exactly
one division, named `DEFAULT` (the no-match fallback). -/
theorem C2_scenarioA_amended :
    (parse_program? "prog.cbl".data scenarioA).map
        (fun p => (p.program_name, p.divisions.map Division.name)) =
      some ("UNKNOWN".data, ["DEFAULT".data]) := by decide

/-- C3 counterexample: the single-line text `ABCDEFG` satisfies the
claim's hypotheses (7th-column character `G` is no comment/debug
marker, length below 80), yet `clean_code` maps it to `G`, not to
itself — lines longer than 6 characters always lose their first six
columns. -/
theorem C3_clean_code_cex :
    "ABCDEFG".data.get? 6 = some 'G' ∧
    "ABCDEFG".data.length < 80 ∧
    splitOnNL "ABCDEFG".data = ["ABCDEFG".data] ∧
    clean_code ["ABCDEFG".data] = "G".data ∧
    ¬ ("G".data = "ABCDEFG".data) := by decide

/-- C3 amended: `clean_code` is the identity on text all of whose lines
are at most 6 characters long and carry no trailing whitespace, when
the text as a whole equals its own strip.  (Longer lines are cut at
column 7 on every application, so the normalizer is not idempotent on
them.) -/
theorem C3_clean_code_idempotent_amended (t : List Char)
    (hlines : ∀ l ∈ splitOnNL t, l.length ≤ 6 ∧ rstripL l = l)
    (hstrip : stripL t = t) :
    clean_code (splitOnNL t) = t := by
  unfold clean_code
  rw [filterMap_id_of, joinNL_splitOnNL, hstrip]
  intro l hl
  obtain ⟨hlen, hr⟩ := hlines l hl
  have hm : isCommentMarked l = false := by
    unfold isCommentMarked
    split
    · omega
    · rfl
  have h80 : ¬ (80 ≤ l.length) := by omega
  have h6 : ¬ (6 < l.length) := by omega
  simp [cleanLine, hm, h80, h6, hr]

/-- C3 witness: a concrete already-normalized text (two short lines) is
left unchanged. -/
theorem C3_clean_code_idempotent_witness :
    clean_code (splitOnNL "AB\nCD".data) = "AB\nCD".data :=
  C3_clean_code_idempotent_amended "AB\nCD".data (by decide) (by decide)

/-- C4 counterexample: the 7-character line `123456*` has `*` in its
7th column, yet `clean_code` keeps it (as `*`): the marker test only
fires when `len(line) > 7`, so the claim's "regardless of the line's
total length" is wrong. -/
theorem C4_comment_line_cex :
    "123456*".data.get? 6 = some '*' ∧
    clean_code ["123456*".data] = "*".data ∧
    ¬ ("*".data = ([] : List Char)) := by decide

/-- C4 amended: every line *longer than 7 characters* whose 7th column
is `*`, `d` or `D` (`isCommentMarked`) is dropped entirely: filtering
such lines out beforehand leaves `clean_code`'s output — and hence any
segmentation of it — unchanged. -/
theorem C4_comment_lines_dropped_amended (lines : List (List Char)) :
    clean_code lines =
      clean_code (lines.filter (fun l => !(isCommentMarked l))) := by
  unfold clean_code
  rw [filterMap_cleanLine_filter]

/-- C5 counterexample: a procedure-division section whose text
`DISPLAY X` has no paragraph-boundary match gets *two* paragraphs (the
`<section>-HEADER` one and a residual `DEFAULT` one: with a single
split part the `len(paragraph_parts) > 1` guards never fire), not one;
and an empty section gets one `DEFAULT` paragraph, not zero. -/
theorem C5_no_paragraph_match_cex :
    finditer .RE_PARAGRAPH "DISPLAY X".data = [] ∧
    (build_paragraphs "SEC".data "DISPLAY X".data).map List.length =
      some 2 ∧
    ¬ ((build_paragraphs "SEC".data "DISPLAY X".data).map List.length =
      some 1) ∧
    (build_paragraphs "SEC".data []).map List.length = some 1 := by decide

/-- C5 amended: a procedure-division section with no paragraph-boundary
match yields the header-call-only paragraph (when its stripped text is
non-empty) *followed by* a residual paragraph named `DEFAULT` carrying
the whole section text and the same extracted calls; an all-blank
section yields just the `DEFAULT` paragraph. -/
theorem C5_no_paragraph_match_amended (sname scode : List Char)
    (h : finditer .RE_PARAGRAPH scode = []) :
    build_paragraphs sname scode = some (
      (if stripL scode = [] then []
       else [{ name := sname ++ "-HEADER".data, code := scode,
               summary := none,
               calls := (findall .RE_PERFORM scode).map upperL }]) ++
      [{ name := "DEFAULT".data, code := scode, summary := none,
         calls := (findall .RE_PERFORM scode).map upperL }]) := by
  have hsplit : split_by_regex scode .RE_PARAGRAPH =
      [⟨"DEFAULT".data, scode⟩] := by
    simp [split_by_regex, h]
  by_cases hs : stripL scode = []
  · simp [build_paragraphs, hsplit, hs]
  · simp [build_paragraphs, hsplit, hs]

/-- C5 witness: the two paragraphs produced for the concrete no-match
section body `DISPLAY X`. -/
theorem C5_no_paragraph_match_witness :
    build_paragraphs "SEC".data "DISPLAY X".data =
      some [{ name := "SEC-HEADER".data, code := "DISPLAY X".data,
              summary := none, calls := [] },
            { name := "DEFAULT".data, code := "DISPLAY X".data,
              summary := none, calls := [] }] :=
  (C5_no_paragraph_match_amended "SEC".data "DISPLAY X".data
    (by decide)).trans (by decide)

/-- C6 counterexample: on the boundary-free input `HELLO` the parser
returns one `DEFAULT` division as claimed, but that division has one
Section (the section split's own `DEFAULT` fallback part is always
appended as a `Section`), not none. -/
theorem C6_no_division_match_cex :
    finditer .RE_DIVISION (replaceCRLF "HELLO".data) = [] ∧
    (parse_program? "f".data "HELLO".data).map
        (fun p => p.divisions.map (fun d => (d.name, d.sections.length))) =
      some [("DEFAULT".data, 1)] ∧
    ¬ ((parse_program? "f".data "HELLO".data).map
        (fun p => p.divisions.map (fun d => (d.name, d.sections))) =
      some [("DEFAULT".data, [])]) := by decide

/-- C6 amended: for every input text with no division-boundary match,
the parser returns exactly one division, named `DEFAULT`, and none of
that division's sections carries any paragraph (the name `DEFAULT`
differs from `PROCEDURE`, so paragraph segmentation never runs). -/
theorem C6_no_division_match_amended (filename content : List Char)
    (h : finditer .RE_DIVISION (replaceCRLF content) = []) :
    (parse_program? filename content).map
        (fun p => p.divisions.map Division.name) = some ["DEFAULT".data] ∧
    (parse_program? filename content).map
        (fun p => p.divisions.map
          (fun d => d.sections.all (fun s => s.paragraphs.isEmpty))) =
      some [true] := by
  obtain ⟨divs, hdivs, hp⟩ := parse_program_splits filename content
  have hsplit : split_by_regex (replaceCRLF content) .RE_DIVISION =
      [⟨"DEFAULT".data, replaceCRLF content⟩] := by
    simp [split_by_regex, h]
  rw [hsplit] at hdivs
  have hfil : ([(⟨"DEFAULT".data, replaceCRLF content⟩ : RPart)].filter
      (fun dp => decide (dp.name ≠ "HEADER".data))) =
      [⟨"DEFAULT".data, replaceCRLF content⟩] := by
    simp [List.filter_cons]
  rw [hfil] at hdivs
  have hone : mapOpt mkDivision
      [(⟨"DEFAULT".data, replaceCRLF content⟩ : RPart)] =
      some [{ name := "DEFAULT".data,
              code := clean_code (splitOnNL (replaceCRLF content)),
              summary := none,
              sections :=
                (split_by_regex (clean_code (splitOnNL (replaceCRLF content)))
                    .RE_SECTION).map
                  (fun sp => { name := sp.name, code := sp.code,
                               summary := none, paragraphs := [] }),
              call_graph_mermaid := none }] := by
    unfold mapOpt
    rw [mkDivision_default]
    rfl
  rw [hone] at hdivs
  simp only [Option.some.injEq] at hdivs
  subst hdivs
  rw [hp]
  constructor
  · simp
  · simp [List.all_map, List.all_eq_true]

/-- C6 witness: the concrete boundary-free input `HELLO`. -/
theorem C6_no_division_match_witness :
    (parse_program? "f".data "HELLO".data).map
        (fun p => p.divisions.map Division.name) = some ["DEFAULT".data] ∧
    (parse_program? "f".data "HELLO".data).map
        (fun p => p.divisions.map
          (fun d => d.sections.all (fun s => s.paragraphs.isEmpty))) =
      some [true] :=
  C6_no_division_match_amended "f".data "HELLO".data (by decide)

/-- Scenario B: a procedure-division section body with two paragraphs
and one PERFORM call. -/
def scenarioB : List Char :=
  "MAIN-PARA.\n    PERFORM SUB-PARA.\nSUB-PARA.\n    DISPLAY 'X'.".data

/-- The two paragraphs the parser extracts from scenario B. -/
def scenarioBParas : List Paragraph :=
  [{ name := "MAIN-PARA".data, code := "PERFORM SUB-PARA.".data,
     summary := none, calls := ["SUB-PARA".data] },
   { name := "SUB-PARA".data, code := "DISPLAY 'X'.".data,
     summary := none, calls := [] }]

/-- A procedure division holding scenario B's single sentinel
section, as `parse_program` would assemble it. -/
def scenarioBDiv : Division :=
  { name := "PROCEDURE".data, code := scenarioB, summary := none,
    sections := [{ name := "DEFAULT".data, code := scenarioB,
                   summary := none, paragraphs := scenarioBParas }],
    call_graph_mermaid := none }

/-- C7: parsing scenario B's section body yields exactly the paragraphs
`MAIN-PARA` (calls = `[SUB-PARA]`) and `SUB-PARA` (no calls), in that
order; the call graph over the resulting division has node list
`[MAIN-PARA, SUB-PARA]` (so node *set* `{MAIN-PARA, SUB-PARA}`) and the
single edge `(MAIN-PARA, SUB-PARA)`. -/
theorem C7_scenarioB :
    build_paragraphs "DEFAULT".data scenarioB = some scenarioBParas ∧
    graph_nodes scenarioBDiv = ["MAIN-PARA".data, "SUB-PARA".data] ∧
    graph_edges scenarioBDiv = [("MAIN-PARA".data, "SUB-PARA".data)] := by
  decide

/-- C8: for a division named `PROCEDURE`, the rendered call graph's
node set contains every paragraph name and every call-target name (each
call also contributing its edge), and a name that is no paragraph's
name — e.g. a dangling call target — is the source of no edge. -/
theorem C8_graph_nodes_superset (d : Division)
    (_hname : d.name = "PROCEDURE".data) :
    (∀ s ∈ d.sections, ∀ p ∈ s.paragraphs,
        p.name ∈ graph_nodes d ∧
        ∀ t ∈ p.calls, t ∈ graph_nodes d ∧ (p.name, t) ∈ graph_edges d) ∧
    (∀ t : List Char,
        (∀ s ∈ d.sections, ∀ p ∈ s.paragraphs, ¬ p.name = t) →
        ∀ e ∈ graph_edges d, ¬ e.1 = t) := by
  constructor
  · intro s hs p hp
    have hpd : p ∈ division_paragraphs d :=
      mem_division_paragraphs.mpr ⟨s, hs, hp⟩
    exact ⟨mem_graph_nodes.mpr ⟨p, hpd, Or.inl rfl⟩,
      fun t ht =>
        ⟨mem_graph_nodes.mpr ⟨p, hpd, Or.inr ht⟩,
         mem_graph_edges.mpr ⟨p, hpd, rfl, ht⟩⟩⟩
  · intro t hundef e he hct
    obtain ⟨a, b⟩ := e
    obtain ⟨p, hpd, ha, _⟩ := mem_graph_edges.mp he
    obtain ⟨s, hs, hp⟩ := mem_division_paragraphs.mp hpd
    exact hundef s hs p hp (by rw [← ha]; exact hct)

/-- Paragraph calling the undefined target `GHOST-PARA`. -/
def ghostPara : Paragraph :=
  { name := "CALLER".data, code := "PERFORM GHOST-PARA.".data,
    summary := none, calls := ["GHOST-PARA".data] }

/-- A procedure division whose only paragraph performs the undefined
`GHOST-PARA`. -/
def ghostDiv : Division :=
  { name := "PROCEDURE".data, code := "PERFORM GHOST-PARA.".data,
    summary := none,
    sections := [{ name := "DEFAULT".data,
                   code := "PERFORM GHOST-PARA.".data,
                   summary := none, paragraphs := [ghostPara] }],
    call_graph_mermaid := none }

/-- C8 witness: the dangling target `GHOST-PARA` is a node of the
graph, with its incoming edge from `CALLER`. -/
theorem C8_graph_nodes_superset_witness :
    "GHOST-PARA".data ∈ graph_nodes ghostDiv ∧
    ("CALLER".data, "GHOST-PARA".data) ∈ graph_edges ghostDiv := by
  have h := ((C8_graph_nodes_superset ghostDiv rfl).1
    { name := "DEFAULT".data, code := "PERFORM GHOST-PARA.".data,
      summary := none, paragraphs := [ghostPara] }
    (by simp [ghostDiv]) ghostPara (by simp)).2
    "GHOST-PARA".data (by simp [ghostPara])
  exact ⟨h.1, h.2⟩

/-- C9: the returned `Program.content` is exactly the input with every
`\r\n` replaced by `\n` and nothing else changed — comment lines,
sequence-number columns and trailing whitespace are all retained
(column stripping applies only to each division's `code`). -/
theorem C9_content_crlf_only (filename content : List Char) :
    (parse_program? filename content).map Program.content =
      some (replaceCRLF content) := by
  obtain ⟨divs, _, hp⟩ := parse_program_splits filename content
  rw [hp]
  rfl

/-- C10: no division of any parsed program is named `HEADER`: the
leading `HEADER` segment produced by `split_by_regex` is skipped, and
every kept part yields a division named either `PROCEDURE` or the
part's own (non-`HEADER`) name. -/
theorem C10_no_header_division (filename content : List Char) (p : Program)
    (hp : parse_program? filename content = some p) :
    ∀ d ∈ p.divisions, ¬ d.name = "HEADER".data := by
  obtain ⟨divs, hdivs, hp2⟩ := parse_program_splits filename content
  rw [hp2] at hp
  simp only [Option.some.injEq] at hp
  subst hp
  intro d hd
  obtain ⟨dp, hdpm, hmk⟩ := mapOpt_mem hdivs d hd
  have hdpn : ¬ dp.name = "HEADER".data := by
    have h2 := (List.mem_filter.mp hdpm).2
    simpa using h2
  rw [mkDivision_name hmk]
  split
  · decide
  · exact hdpn

/-- The `DATA` division parsed out of `junk\nDATA DIVISION.\nX` (the
leading `junk` line becomes a discarded `HEADER` segment). -/
def headerDivision : Division :=
  { name := "DATA".data, code := "X".data, summary := none,
    sections := [{ name := "DEFAULT".data, code := "X".data,
                   summary := none, paragraphs := [] }],
    call_graph_mermaid := none }

/-- The program parsed from `junk\nDATA DIVISION.\nX`. -/
def headerProgram : Program :=
  { filename := "f".data, program_name := "UNKNOWN".data,
    content := "junk\nDATA DIVISION.\nX".data,
    divisions := [headerDivision] }

/-- C10 witness: on an input with text before the first division
boundary, the surviving division is not named `HEADER`. -/
theorem C10_no_header_division_witness :
    ¬ headerDivision.name = "HEADER".data :=
  C10_no_header_division "f".data "junk\nDATA DIVISION.\nX".data
    headerProgram (by decide) headerDivision (by simp [headerProgram])

end CobolParser

